import Mathlib

/-!
# Verification of the BD-Core data-sanitization pipeline

Shallow embedding of the cleaning pipeline of `src/core/cleaner.py`
(`DataCleaner`: transformation, header sanitization, value sanitization,
auto-melt, final type enforcement) and of the column-role mapping of
`src/plugins/base.py` (`_apply_mapping`).

Modelling conventions:
* A pandas cell is a tagged value `Cell`: a float (`num`, idealized as a real
  number), a string (`str`), or `NaN` (`missing`).
* A `DataFrame` is a `Table`: an ordered list of named columns, each an
  ordered list of cells.  Row alignment is the `wellFormed` predicate.
* `str(x)` round-trips through `float` for float cells, so cell-level string
  cleaning fixes `num` cells; `str(nan) = "nan"` parses back to `nan`, so
  `missing` maps to `missing` in `cleanCell`/`extract_num`/`math_op`.
* Python `float(s)` and `pd.to_numeric` are modelled by `pyFloat?`
  (sign, digits, optional point, optional exponent, surrounding whitespace;
  the exotic `"inf"`/`"nan"`/underscore literals are outside the model and
  outside every claim).
* A column has pandas numeric dtype after the elementwise cleaning maps
  exactly when it contains no string cell; `select_dtypes(['object',
  'category'])` selects the columns containing at least one string cell.
* `numpy` float logarithms are idealized as `Real.logb`/`Real.log`, which is
  the one place the embedding is not executable by the compiler; all decision
  logic (parsing, counting, renaming) is exact and kernel-evaluable.
-/

set_option maxRecDepth 4000

namespace BDCore

/-! ## Python string primitives -/

/-- The ASCII whitespace characters of Python's `str.strip` and `\s`. -/
def isPySpace (c : Char) : Bool :=
  c == ' ' || c == '\t' || c == '\n' || c == '\r' || c == '\x0b' || c == '\x0c'

/-- `str.strip()` on a character list. -/
def stripChars (l : List Char) : List Char :=
  ((l.dropWhile isPySpace).reverse.dropWhile isPySpace).reverse

/-- `str.strip()`. -/
def pyStrip (s : String) : String := ⟨stripChars s.toList⟩

/-- ASCII `str.lower()` on one character. -/
def pyLowerChar (c : Char) : Char :=
  if 'A' ≤ c && c ≤ 'Z' then Char.ofNat (c.toNat + 32) else c

/-- `str.lower()` (headers and configuration values in scope are ASCII). -/
def pyLowerStr (s : String) : String := ⟨s.toList.map pyLowerChar⟩

/-- One step of `re.sub(r'\s+', '_', s)`: the flag records whether the
previous character was whitespace (so the current run is already replaced). -/
def collapseWsAux : Bool → List Char → List Char
  | _, [] => []
  | prevWs, c :: r =>
    if isPySpace c then
      if prevWs then collapseWsAux true r else '_' :: collapseWsAux true r
    else c :: collapseWsAux false r

/-- `re.sub(r'\s+', '_', s)`: every run of whitespace becomes one underscore. -/
def collapseWs (s : String) : String := ⟨collapseWsAux false s.toList⟩

/-- `s.replace(' ', '_')`: each single space character becomes an underscore. -/
def spaceRepl (c : Char) : Char := if c == ' ' then '_' else c

/-- Header normalization of `DataCleaner._sanitize_headers`:
stringify, strip, lowercase, collapse whitespace runs to `_`. -/
def normalizeHeader (s : String) : String := collapseWs (pyLowerStr (pyStrip s))

/-- The fallback normalization inside `find_col` of `plugins/base.py`:
`target.strip().lower().replace(' ', '_')`. -/
def findColNorm (s : String) : String := ⟨(pyLowerStr (pyStrip s)).toList.map spaceRepl⟩

/-- `needle` occurs at the head of `hay`. -/
def isPrefixOfChars : List Char → List Char → Bool
  | [], _ => true
  | _ :: _, [] => false
  | a :: p, b :: q => a == b && isPrefixOfChars p q

/-- Python's `needle in hay` substring test. -/
def containsSub (needle : List Char) : List Char → Bool
  | [] => needle.isEmpty
  | c :: r => isPrefixOfChars needle (c :: r) || containsSub needle r

/-! ## Numeric parsing (`float`, `pd.to_numeric`, and the extraction regex) -/

/-- Value of a digit string. -/
def digitsVal (l : List Char) : Nat :=
  l.foldl (fun n c => 10 * n + (c.toNat - 48)) 0

/-- The exact rational value `±digits · 10^(e - fracLen)` of a parsed
decimal literal with digit string value `digits`, `fracLen` digits after
the point and exponent `e`.  Built with `mkRat` and integer arithmetic so
that it evaluates by kernel reduction. -/
def ratOfParts (neg : Bool) (digits fracLen : ℕ) (e : ℤ) : ℚ :=
  let sn : ℤ := if neg then -(digits : ℤ) else (digits : ℤ)
  let p : ℤ := e - (fracLen : ℤ)
  if 0 ≤ p then mkRat (sn * (10 : ℤ) ^ p.toNat) 1
  else mkRat sn ((10 : ℕ) ^ (-p).toNat)

/-- Mantissa of a Python float literal: `D+ [. D*] | . D+ | D+ .`;
returns the digit value, the number of fractional digits, and the
unconsumed remainder. -/
def parseMantissa (l : List Char) : Option ((ℕ × ℕ) × List Char) :=
  let ds := l.takeWhile Char.isDigit
  let r1 := l.dropWhile Char.isDigit
  match r1 with
  | '.' :: r2 =>
    let fs := r2.takeWhile Char.isDigit
    let r3 := r2.dropWhile Char.isDigit
    if ds.isEmpty && fs.isEmpty then none
    else some ((digitsVal (ds ++ fs), fs.length), r3)
  | _ => if ds.isEmpty then none else some ((digitsVal ds, 0), r1)

/-- Exponent part `([eE][-+]?\d+)`; returns the exponent and the remainder. -/
def parseExpPart (l : List Char) : Option (ℤ × List Char) :=
  match l with
  | [] => none
  | c :: r =>
    if c == 'e' || c == 'E' then
      let negr : Bool × List Char :=
        match r with
        | '+' :: r2 => (false, r2)
        | '-' :: r2 => (true, r2)
        | _ => (false, r)
      let es := negr.2.takeWhile Char.isDigit
      let r3 := negr.2.dropWhile Char.isDigit
      if es.isEmpty then none
      else some (if negr.1 then -(digitsVal es : ℤ) else (digitsVal es : ℤ), r3)
    else none

/-- Model of Python `float(s)` (also of per-cell `pd.to_numeric`): optional
surrounding whitespace, optional sign, mantissa, optional exponent, and the
whole string must be consumed. -/
def pyFloat? (s : String) : Option ℚ :=
  let l := stripChars s.toList
  let sl : Bool × List Char :=
    match l with
    | '+' :: r => (false, r)
    | '-' :: r => (true, r)
    | _ => (false, l)
  match parseMantissa sl.2 with
  | none => none
  | some (m, r) =>
    match parseExpPart r with
    | some (e, r2) =>
      if r2.isEmpty then some (ratOfParts sl.1 m.1 m.2 e) else none
    | none => if r.isEmpty then some (ratOfParts sl.1 m.1 m.2 0) else none

/-- The leading-number extraction regex of `_sanitize_values`,
`^([-+]?\d*\.?\d+([eE][-+]?\d+)?)`, with its backtracking semantics:
the `.` is consumed only when a digit follows it, and the exponent group is
all-or-nothing.  Returns the value of the matched prefix. -/
def extractLeading? (l : List Char) : Option ℚ :=
  let sl : Bool × List Char :=
    match l with
    | '+' :: r => (false, r)
    | '-' :: r => (true, r)
    | _ => (false, l)
  let ds := sl.2.takeWhile Char.isDigit
  let r1 := sl.2.dropWhile Char.isDigit
  let mant : Option ((ℕ × ℕ) × List Char) :=
    match r1 with
    | '.' :: r2 =>
      if (r2.headD ' ').isDigit then
        some ((digitsVal (ds ++ r2.takeWhile Char.isDigit),
               (r2.takeWhile Char.isDigit).length),
              r2.dropWhile Char.isDigit)
      else if ds.isEmpty then none
      else some ((digitsVal ds, 0), r1)
    | _ => if ds.isEmpty then none else some ((digitsVal ds, 0), r1)
  match mant with
  | none => none
  | some (m, r) =>
    match parseExpPart r with
    | some (e, _) => some (ratOfParts sl.1 m.1 m.2 e)
    | none => some (ratOfParts sl.1 m.1 m.2 0)

/-- First letter of the not-detected token. -/
def isNdN (c : Char) : Bool := c == 'n' || c == 'N'

/-- Second letter of the not-detected token. -/
def isNdD (c : Char) : Bool := c == 'd' || c == 'D'

/-- The not-detected regex `(?i)^n\.?d\.?$` of `clean_cell`, on characters. -/
def matchNDChars : List Char → Bool
  | [a, b] => isNdN a && isNdD b
  | [a, b, c] => (isNdN a && b == '.' && isNdD c) || (isNdN a && isNdD b && c == '.')
  | [a, b, c, d] => isNdN a && b == '.' && isNdD c && d == '.'
  | _ => false

/-- The not-detected regex `(?i)^n\.?d\.?$` of `clean_cell`. -/
def matchND (s : String) : Bool := matchNDChars s.toList

/-- The unit-value regex `^\s*[-+]?\.?\d` of `check_numeric` in
`_final_type_enforcement` (`re.match`, so anchored at the start). -/
def matchUnitStart (l : List Char) : Bool :=
  let l1 := l.dropWhile isPySpace
  let l2 :=
    match l1 with
    | c :: r => if c == '+' || c == '-' then r else l1
    | [] => []
  let l3 :=
    match l2 with
    | '.' :: r => r
    | _ => l2
  match l3 with
  | c :: _ => c.isDigit
  | [] => false

/-! ## Cells and tables -/

/-- A pandas cell: a float (idealized as a real), a string, or `NaN`. -/
inductive Cell where
  | num (x : ℝ)
  | str (s : String)
  | missing

/-- Is the cell a string? -/
def Cell.isStr : Cell → Bool
  | .str _ => true
  | _ => false

/-- Is the cell missing (`NaN`)? -/
def Cell.isMissing : Cell → Bool
  | .missing => true
  | _ => false

/-- Does per-cell `pd.to_numeric(·, errors='coerce')` produce a non-missing
number on this cell? -/
def cellParses : Cell → Bool
  | .num _ => true
  | .missing => false
  | .str s => (pyFloat? s).isSome

/-- A `DataFrame`: an ordered list of named columns of cells. -/
structure Table where
  cols : List (String × List Cell)

/-- `df.columns`. -/
def columnNames (t : Table) : List String := t.cols.map Prod.fst

/-- `len(df)`: the common column length (the length of the first column). -/
def nRows (t : Table) : Nat :=
  match t.cols with
  | [] => 0
  | c :: _ => c.2.length

/-- `df[n]`: the data of the first column named `n`. -/
def getColData (t : Table) (n : String) : Option (List Cell) :=
  (t.cols.find? (fun c => c.1 == n)).map Prod.snd

/-- All columns have the common length (pandas tables are rectangular). -/
def wellFormed (t : Table) : Bool :=
  t.cols.all (fun c => c.2.length == nRows t)

/-- `df[n] = df[n].map(f)`: map `f` over the cells of the column(s) named `n`. -/
def mapColCells (t : Table) (n : String) (f : Cell → Cell) : Table :=
  ⟨t.cols.map (fun c => if c.1 == n then (c.1, c.2.map f) else c)⟩

/-- `df.map(f)`: map `f` over every cell. -/
def mapAllCells (t : Table) (f : Cell → Cell) : Table :=
  ⟨t.cols.map (fun c => (c.1, c.2.map f))⟩

/-- `df.rename(columns={a: b})`. -/
def renameCol (t : Table) (a b : String) : Table :=
  ⟨t.cols.map (fun c => if c.1 == a then (b, c.2) else c)⟩

/-- `df[n] = data`: replace the column named `n` in place, or append it. -/
def setCol (t : Table) (n : String) (d : List Cell) : Table :=
  if (columnNames t).contains n then
    ⟨t.cols.map (fun c => if c.1 == n then (n, d) else c)⟩
  else ⟨t.cols ++ [(n, d)]⟩

/-- The configuration keys consumed by the pipeline.  `graph` and `model`
hold what `config.get('graph', '')` / `config.get('model', 'linear')`
return; the four optional fields are `None` when the key is absent. -/
structure Config where
  graph : String
  model : String
  dependent_variable : Option String
  independent_variable : Option String
  xlabel : Option String
  ylabel : Option String

/-- Python truthiness of an optional string (`None` and `""` are falsy). -/
def truthy (o : Option String) : Bool := !(o.getD "" == "")

/-! ## Stage 1: `_apply_transformation` -/

/-- `math_op` of `_apply_transformation`: parse as float (a non-parsing
string is returned unchanged), send non-positive values to `NaN`, apply the
selected logarithm; an unrecognized non-linear model returns the original
cell.  `float(nan)` is `nan` and every numpy log of `nan` is `nan`, so a
missing cell stays missing. -/
noncomputable def mathOp (model : String) : Cell → Cell
  | .missing => .missing
  | .num x =>
    if x ≤ 0 then .missing
    else if model == "log2" then .num (Real.logb 2 x)
    else if model == "log10" then .num (Real.logb 10 x)
    else if model == "ln" then .num (Real.log x)
    else .num x
  | .str s =>
    match pyFloat? s with
    | none => .str s
    | some q =>
      if q ≤ 0 then .missing
      else if model == "log2" then .num (Real.logb 2 (q : ℝ))
      else if model == "log10" then .num (Real.logb 10 (q : ℝ))
      else if model == "ln" then .num (Real.log (q : ℝ))
      else .str s

/-- `DataCleaner._apply_transformation`: no-op for the linear model; else
transform the raw-named dependent-variable column if present and non-empty,
and otherwise the whole table. -/
noncomputable def applyTransformation (cfg : Config) (t : Table) : Table :=
  let model := pyLowerStr cfg.model
  if model == "linear" then t
  else
    let target := cfg.dependent_variable.getD ""
    if !(target == "") && (columnNames t).contains target then
      mapColCells t target (mathOp model)
    else mapAllCells t (mathOp model)

/-! ## Stage 2: `_sanitize_headers` -/

/-- `DataCleaner._sanitize_headers`. -/
def sanitizeHeaders (t : Table) : Table :=
  ⟨t.cols.map (fun c => (normalizeHeader c.1, c.2))⟩

/-! ## Stage 3: `_sanitize_values` -/

/-- `clean_cell` of `_sanitize_values`: missing stays missing; the
stringified, stripped value is sent to `NaN` when it is a not-detected
token, to its float value by a direct parse or by leading-number
extraction, and is otherwise kept as the stripped text.  (In the model the
extracted prefix always reparses, so the defensive `except` branch of the
source is unreachable.) -/
noncomputable def cleanCell : Cell → Cell
  | .missing => .missing
  | .num x => .num x
  | .str s =>
    let v := pyStrip s
    if matchND v then .missing
    else
      match pyFloat? v with
      | some q => .num (q : ℝ)
      | none =>
        match extractLeading? v.toList with
        | some q => .num (q : ℝ)
        | none => .str v

/-- `DataCleaner._sanitize_values`. -/
noncomputable def sanitizeValues (t : Table) : Table := mapAllCells t cleanCell

/-! ## Stage 4: `_auto_melt_strategy` -/

/-- `is_numeric_leaning` of `_auto_melt_strategy`: natively numeric dtype,
or the count of values surviving `pd.to_numeric(col, errors='coerce')`
exceeds half of `len(col)` (the float comparison `num/total > 0.5` is exact
for these magnitudes, hence `2 * num > total`; an empty column yields
`False` in the ratio branch). -/
def is_numeric_leaning (col : List Cell) : Bool :=
  if col.all (fun c => !c.isStr) then true
  else decide (col.length < 2 * (col.filter cellParses).length)

/-- The numeric-leaning column names, in table order. -/
def numericCols (t : Table) : List String :=
  (t.cols.filter (fun c => is_numeric_leaning c.2)).map Prod.fst

/-- `object_cols`: the names not in `numeric_cols`, in table order. -/
def objectCols (t : Table) : List String :=
  (columnNames t).filter (fun n => !((numericCols t).contains n))

/-- The auto-melt skip condition: `'scatter' in graph or 'heatmap' in graph`
on the lowercased graph type. -/
def skipGraph (cfg : Config) : Bool :=
  let g := (pyLowerStr cfg.graph).toList
  containsSub "scatter".toList g || containsSub "heatmap".toList g

/-- `is_wide`: numeric-leaning columns outnumber twice the object columns
and no *object* column is named `group`. -/
def isWideTable (t : Table) : Bool :=
  decide (2 * (objectCols t).length < (numericCols t).length) &&
    !((objectCols t).contains "group")

/-- `df.index` as a column: the zero-based row positions. -/
noncomputable def indexColumn (t : Table) : List Cell :=
  (List.range (nRows t)).map (fun i : ℕ => Cell.num (i : ℝ))

/-- The value columns of `df.melt(id_vars)`: every column not in `id_vars`. -/
def valueVarCols (t : Table) (idv : List String) : List (String × List Cell) :=
  t.cols.filter (fun c => !(idv.contains c.1))

/-- `df.melt(id_vars=idv, var_name='variable', value_name='value')`:
one block of rows per value column; id columns are repeated per block, the
`variable` column holds the melted column's name, `value` its cells. -/
def meltTable (t : Table) (idv : List String) : Table :=
  let vcols := valueVarCols t idv
  ⟨(t.cols.filter (fun c => idv.contains c.1)).map
      (fun c => (c.1, vcols.flatMap (fun _ => c.2)))
    ++ [("variable", vcols.flatMap (fun v => List.replicate (nRows t) (Cell.str v.1))),
        ("value", vcols.flatMap (fun v => v.2))]⟩

/-- `df['variable'] = df['variable'].astype(str).str.strip()` after a melt. -/
def stripVariableCol (t : Table) : Table :=
  mapColCells t "variable"
    (fun c => match c with | .str s => .str (pyStrip s) | c => c)

/-- The melt branch of `_auto_melt_strategy`: object columns are the id
variables; with no object column a zero-based `index` column is synthesized
first and used as the id. -/
noncomputable def performMelt (t : Table) : Table :=
  let idv := objectCols t
  if idv.isEmpty then
    stripVariableCol (meltTable (setCol t "index" (indexColumn t)) ["index"])
  else stripVariableCol (meltTable t idv)

/-- Did `_auto_melt_strategy` reshape? (Not skipped, and the table is wide.) -/
def meltHappens (cfg : Config) (t : Table) : Bool :=
  !skipGraph cfg && isWideTable t

/-- `DataCleaner._auto_melt_strategy`. -/
noncomputable def autoMeltStrategy (cfg : Config) (t : Table) : Table :=
  if skipGraph cfg then t
  else if isWideTable t then performMelt t
  else t

/-! ## Stage 5: `_final_type_enforcement` -/

/-- Per-cell `pd.to_numeric(·, errors='coerce')`: a strict full-string
parse; strings that fail to parse become missing. -/
noncomputable def toNumericCell : Cell → Cell
  | .num x => .num x
  | .missing => .missing
  | .str s =>
    match pyFloat? s with
    | some q => .num (q : ℝ)
    | none => .missing

/-- Step 1 of `_final_type_enforcement`: force a column literally named
`value` to numeric. -/
noncomputable def valueCoerce (t : Table) : Table :=
  if (columnNames t).contains "value" then mapColCells t "value" toNumericCell
  else t

/-- `check_numeric` of `_final_type_enforcement`: more than half of all
cells parse strictly, or — among the non-missing cells, stringified — more
than half match the unit-prefix regex `^\s*[-+]?\.?\d`.  A stringified float
always starts with an optional sign and a digit, so `num` cells match. -/
def checkNumeric (col : List Cell) : Bool :=
  if decide (col.length < 2 * (col.filter cellParses).length) then true
  else
    let nonMiss := col.filter (fun c => !c.isMissing)
    if nonMiss.isEmpty then false
    else decide (nonMiss.length <
      2 * (nonMiss.filter (fun c => match c with
            | .num _ => true
            | .missing => false
            | .str s => matchUnitStart s.toList)).length)

/-- `extract_num` of `_final_type_enforcement`: stringify and strip, try a
direct float parse, then leading-number extraction, else missing.
(`str(nan) = "nan"` reparses to `nan`, so missing stays missing.) -/
noncomputable def extract_num : Cell → Cell
  | .missing => .missing
  | .num x => .num x
  | .str s =>
    let v := pyStrip s
    match pyFloat? v with
    | some q => .num (q : ℝ)
    | none =>
      match extractLeading? v.toList with
      | some q => .num (q : ℝ)
      | none => .missing

/-- Step 2 of `_final_type_enforcement`: resolve the declared dependent
variable through the header normalization; when the resolved column exists
and either a non-linear model is configured (compared on the raw `model`
value) or the column passes `check_numeric`, re-extract its numbers.
Returns the updated table and the final value of the `target_y` variable. -/
noncomputable def yEnforce (cfg : Config) (t : Table) : Table × Option String :=
  if truthy cfg.dependent_variable then
    let tyc := normalizeHeader (cfg.dependent_variable.getD "")
    if (columnNames t).contains tyc then
      if !(cfg.model == "linear") || checkNumeric ((getColData t tyc).getD []) then
        (mapColCells t tyc extract_num, some tyc)
      else (t, some tyc)
    else (t, cfg.dependent_variable)
  else (t, cfg.dependent_variable)

/-- The first column of object/category dtype, i.e. the first column
containing a string cell. -/
def firstObjCol (t : Table) : Option String :=
  (t.cols.find? (fun c => c.2.any Cell.isStr)).map Prod.fst

/-- Step 3 of `_final_type_enforcement`: ensure a `group` column.  Skipped
when one exists or for scatter graphs; else a `variable` column is renamed,
else the first object column is renamed — but only when its name differs
from the resolved dependent variable `ry`. -/
def groupAssign (cfg : Config) (ry : Option String) (t : Table) : Table :=
  if (columnNames t).contains "group" then t
  else if containsSub "scatter".toList (pyLowerStr cfg.graph).toList then t
  else if (columnNames t).contains "variable" then renameCol t "variable" "group"
  else
    match firstObjCol t with
    | some c => if !(ry == some c) then renameCol t c "group" else t
    | none => t

/-- `DataCleaner._final_type_enforcement`. -/
noncomputable def finalTypeEnforcement (cfg : Config) (t : Table) : Table :=
  let t1 := valueCoerce t
  let p := yEnforce cfg t1
  groupAssign cfg p.2 p.1

/-! ## Stage 6: `_apply_mapping` of `plugins/base.py` -/

/-- `find_col`: exact name match, else match of the
`strip().lower().replace(' ', '_')` normalization. -/
def findCol (names : List String) (target : String) : Option String :=
  if names.contains target then some target
  else if names.contains (findColNorm target) then some (findColNorm target)
  else none

/-- `BasePlot._apply_mapping`: resolve the independent variable (falling
back to `xlabel`) and rename it to `x`, then the dependent variable
(falling back to `ylabel`) and rename it to `y`, sequentially. -/
def applyMapping (cfg : Config) (t : Table) : Table :=
  let tx :=
    match cfg.independent_variable with
    | some s => if s == "" then cfg.xlabel else some s
    | none => cfg.xlabel
  let t1 :=
    if truthy tx then
      match findCol (columnNames t) (tx.getD "") with
      | some f => renameCol t f "x"
      | none => t
    else t
  let ty :=
    match cfg.dependent_variable with
    | some s => if s == "" then cfg.ylabel else some s
    | none => cfg.ylabel
  if truthy ty then
    match findCol (columnNames t1) (ty.getD "") with
    | some f => renameCol t1 f "y"
    | none => t1
  else t1

/-- The full pipeline: `DataCleaner.run` (stages 1-5, in source order)
followed by the plugin's `_apply_mapping`. -/
noncomputable def pipeline (cfg : Config) (t : Table) : Table :=
  applyMapping cfg
    (finalTypeEnforcement cfg
      (autoMeltStrategy cfg
        (sanitizeValues
          (sanitizeHeaders
            (applyTransformation cfg t)))))

/-! ## Claim-side definitions and concrete fixtures -/

/-- The spec's wording of the numeric-leaning test (C1), for comparison
with `is_numeric_leaning`: natively numeric, or more than 50% of the
*non-missing* values parse as numeric. -/
def spec_numeric_leaning (col : List Cell) : Bool :=
  col.all (fun c => !c.isStr) ||
    decide ((col.filter (fun c => !c.isMissing)).length <
      2 * (col.filter cellParses).length)

/-- No two adjacent whitespace characters. -/
def noAdjWs : List Char → Bool
  | [] => true
  | [_] => true
  | a :: b :: r => !(isPySpace a && isPySpace b) && noAdjWs (b :: r)

/-- Every whitespace character is a plain space. -/
def wsAllSpace (l : List Char) : Bool :=
  l.all (fun c => !isPySpace c || c == ' ')

/-- The names of the columns a performed melt turns into rows: without the
`index` fallback these are the columns outside the id variables; with it,
every column other than (the possibly overwritten) `index`. -/
def meltedVarNames (t : Table) : List String :=
  if (objectCols t).isEmpty then (columnNames t).filter (fun n => !(n == "index"))
  else (columnNames t).filter (fun n => !((objectCols t).contains n))

/-- A plain box-plot configuration with a linear model and no mapping. -/
def cfgBox : Config := ⟨"box", "linear", none, none, none, none⟩

/-- C2 counterexample: a numeric-leaning column literally named `group`
next to two further numeric columns. -/
def tblGroupNumeric : Table :=
  ⟨[("group", [Cell.num 1]), ("a", [Cell.num 2]), ("b", [Cell.num 3])]⟩

/-- C2 witness: exactly two numeric-leaning columns against one object
column — the tie case. -/
def tblTie : Table :=
  ⟨[("g", [Cell.str "a"]), ("v1", [Cell.num 1]), ("v2", [Cell.num 2])]⟩

/-- C4 configuration: box plot, dependent variable declared as `col_a`. -/
def cfg4 : Config := ⟨"box", "linear", some "col_a", none, none, none⟩

/-- C4 counterexample table: the first text column `col_a` is the resolved
dependent-variable column and a later text column `col_b` exists. -/
def tbl4 : Table := ⟨[("col_a", [Cell.str "u"]), ("col_b", [Cell.str "v"])]⟩

/-- C4 witness table: first text column distinct from the dependent one. -/
def tbl4w : Table := ⟨[("g1", [Cell.str "a"]), ("y1", [Cell.num 1])]⟩

/-- C5 configuration from the end-to-end scenario of the spec. -/
def cfg5 : Config :=
  ⟨"box", "linear", some "Conc. (mg/ml)", some "Group", none, none⟩

/-- C5 input table from the end-to-end scenario of the spec. -/
def tbl5 : Table :=
  ⟨[("Conc. (mg/ml)", [Cell.str "1.5 mg/mL", Cell.str "ND"]),
    ("Group", [Cell.str "Control", Cell.str "Treated"])]⟩

/-- C6 configuration: log2 model, dependent variable found by raw name. -/
def cfg6 : Config := ⟨"box", "log2", some "y", none, none, none⟩

/-- C6 input table: the dependent column `[4, 8, -1, "x"]` next to an
untouched text column. -/
def tbl6 : Table :=
  ⟨[("y", [Cell.num 4, Cell.num 8, Cell.num (-1), Cell.str "x"]),
    ("g", [Cell.str "a", Cell.str "b", Cell.str "c", Cell.str "d"])]⟩

/-- C8 witness: one object column and three numeric columns — a wide table. -/
def tbl8w : Table :=
  ⟨[("g", [Cell.str "a"]), ("v1", [Cell.num 1]), ("v2", [Cell.num 2]),
    ("v3", [Cell.num 3])]⟩

/-- C10 configuration: box plot, dependent variable declared as `dose`. -/
def cfg10 : Config := ⟨"box", "linear", some "dose", none, none, none⟩

/-- C10 table: a unit-suffixed cell both in a column literally named
`value` (not produced by any reshape) and in the dependent column. -/
def tbl10 : Table :=
  ⟨[("value", [Cell.str "10kg"]), ("dose", [Cell.str "10kg"])]⟩

/-! ## General lemmas about the table primitives -/

theorem contains_iff_mem {α : Type} [BEq α] [LawfulBEq α] (l : List α) (a : α) :
    l.contains a = true ↔ a ∈ l :=
  List.elem_iff

theorem flatMap_const_length {α β : Type} (l : List α) (d : List β) :
    (l.flatMap (fun _ => d)).length = l.length * d.length := by
  induction l with
  | nil => simp
  | cons c r ih => simp [List.flatMap_cons, ih, Nat.succ_mul, Nat.add_comm]

theorem map_fst_filter_name (cols : List (String × List Cell)) (p : String → Bool) :
    ((cols.filter (fun c => p c.1)).map Prod.fst) = (cols.map Prod.fst).filter p := by
  rw [List.filter_map]
  rfl

theorem nRows_mapColCells (t : Table) (n : String) (f : Cell → Cell) :
    nRows (mapColCells t n f) = nRows t := by
  obtain ⟨cols⟩ := t
  cases cols with
  | nil => rfl
  | cons c r =>
    show (if c.1 == n then (c.1, c.2.map f) else c).2.length = c.2.length
    by_cases h : c.1 == n <;> simp [h]

theorem nRows_mapAllCells (t : Table) (f : Cell → Cell) :
    nRows (mapAllCells t f) = nRows t := by
  obtain ⟨cols⟩ := t
  cases cols with
  | nil => rfl
  | cons c r => simp [mapAllCells, nRows]

theorem nRows_renameCol (t : Table) (a b : String) :
    nRows (renameCol t a b) = nRows t := by
  obtain ⟨cols⟩ := t
  cases cols with
  | nil => rfl
  | cons c r =>
    show (if c.1 == a then (b, c.2) else c).2.length = c.2.length
    by_cases h : c.1 == a <;> simp [h]

theorem columnNames_mapColCells (t : Table) (n : String) (f : Cell → Cell) :
    columnNames (mapColCells t n f) = columnNames t := by
  obtain ⟨cols⟩ := t
  show (cols.map _).map Prod.fst = cols.map Prod.fst
  induction cols with
  | nil => rfl
  | cons c r ih =>
    simp only [List.map_cons, ih]
    by_cases h : c.1 == n <;> simp [h]

theorem find?_name_map (cols : List (String × List Cell)) (n : String) (f : Cell → Cell) :
    ((cols.map (fun c => if c.1 == n then (c.1, c.2.map f) else c)).find?
        (fun c => c.1 == n)).map Prod.snd
      = ((cols.find? (fun c => c.1 == n)).map Prod.snd).map (List.map f) := by
  induction cols with
  | nil => rfl
  | cons c r ih =>
    by_cases h : (c.1 == n) = true
    · rw [List.map_cons, if_pos h]
      simp [List.find?_cons, h]
    · rw [List.map_cons, if_neg h]
      have h' : (c.1 == n) = false := by
        cases hb : c.1 == n
        · rfl
        · exact absurd hb h
      simp only [List.find?_cons, h']
      exact ih

theorem getColData_mapColCells (t : Table) (n : String) (f : Cell → Cell) :
    getColData (mapColCells t n f) n = (getColData t n).map (List.map f) := by
  obtain ⟨cols⟩ := t
  show ((cols.map _).find? _).map Prod.snd = ((cols.find? _).map Prod.snd).map (List.map f)
  exact find?_name_map cols n f

/-! ## C1: the numeric-leaning classification -/

/-- C1 (amended): a column is numeric-leaning iff it has native numeric
dtype or strictly more than 50% of *all* its cells — missing cells counted
in the denominator — parse as numeric under `pd.to_numeric`. -/
theorem cleaner_numeric_leaning_denominator (col : List Cell) :
    is_numeric_leaning col = true ↔
      (col.all (fun c => !c.isStr) = true ∨
        col.length < 2 * (col.filter cellParses).length) := by
  unfold is_numeric_leaning
  by_cases h : col.all (fun c => !c.isStr) = true <;> simp [h]

/-- C1 counterexample: in a text column whose single non-missing value
`"1"` parses as a number but two of three cells are missing, the spec's
non-missing-denominator reading classifies it numeric-leaning while the
code classifies it non-numeric (the code divides by `len(col)`). -/
theorem cleaner_numeric_leaning_claim_cx :
    spec_numeric_leaning [Cell.str "1", Cell.missing, Cell.missing] = true ∧
    is_numeric_leaning [Cell.str "1", Cell.missing, Cell.missing] = false := by
  decide

/-! ## C7: not-detected tokens become missing -/

/-- C7: every cell whose stripped string form matches the case-insensitive
not-detected pattern `^n\.?d\.?$` is cleaned to missing by `clean_cell` —
never kept as text and never turned into zero. -/
theorem sanitizer_nd_to_missing (s : String) (h : matchND (pyStrip s) = true) :
    cleanCell (Cell.str s) = Cell.missing := by
  simp [cleanCell, h]

/-- C7 witness at the concrete token `"N.D."`. -/
theorem sanitizer_nd_to_missing_witness :
    matchND (pyStrip "N.D.") = true ∧ cleanCell (Cell.str "N.D.") = Cell.missing :=
  ⟨by decide, sanitizer_nd_to_missing "N.D." (by decide)⟩

/-! ## C5: the end-to-end box-plot scenario -/

/-- C5: the full pipeline on
`[["Conc. (mg/ml)", "Group"], ["1.5 mg/mL", "Control"], ["ND", "Treated"]]`
with graph `box` and the declared mapping produces exactly the columns
`y = [1.5, Missing]` and `x = ["Control", "Treated"]`, with no separate
`group` column (the group column was consumed by the rename to `x`). -/
theorem pipeline_end_to_end_box :
    pipeline cfg5 tbl5 =
      ⟨[("y", [Cell.num (1.5 : ℝ), Cell.missing]),
        ("x", [Cell.str "Control", Cell.str "Treated"])]⟩ := by
  have h : ((mkRat 3 2 : ℚ) : ℝ) = (1.5 : ℝ) := by
    rw [Rat.mkRat_eq_div]
    push_cast
    norm_num
  rw [← h]
  rfl

/-! ## C6: the log2 transformation -/

theorem logb_two_four : Real.logb 2 4 = 2 := by
  have h2 : Real.log 2 ≠ 0 := ne_of_gt (Real.log_pos one_lt_two)
  have h4 : (4 : ℝ) = 2 ^ (2 : ℕ) := by norm_num
  rw [Real.logb, h4, Real.log_pow]
  field_simp

theorem logb_two_eight : Real.logb 2 8 = 3 := by
  have h2 : Real.log 2 ≠ 0 := ne_of_gt (Real.log_pos one_lt_two)
  have h8 : (8 : ℝ) = 2 ^ (3 : ℕ) := by norm_num
  rw [Real.logb, h8, Real.log_pow]
  field_simp

/-- C6: with model log2 and the dependent column found by its raw name,
the transformation stage maps `[4, 8, -1, "x"]` to `[2, 3, Missing, "x"]`
(non-positive value to missing, non-parsing text unchanged, positive value
to its base-2 logarithm), leaving the other column untouched. -/
theorem transform_log2_column :
    applyTransformation cfg6 tbl6 =
      ⟨[("y", [Cell.num 2, Cell.num 3, Cell.missing, Cell.str "x"]),
        ("g", [Cell.str "a", Cell.str "b", Cell.str "c", Cell.str "d"])]⟩ := by
  have h4 : mathOp "log2" (Cell.num 4) = Cell.num 2 := by
    simp only [mathOp]
    rw [if_neg (by norm_num : ¬(4 : ℝ) ≤ 0)]
    simp [logb_two_four]
  have h8 : mathOp "log2" (Cell.num 8) = Cell.num 3 := by
    simp only [mathOp]
    rw [if_neg (by norm_num : ¬(8 : ℝ) ≤ 0)]
    simp [logb_two_eight]
  have hneg : mathOp "log2" (Cell.num (-1)) = Cell.missing := by
    simp only [mathOp]
    rw [if_pos (by norm_num : (-1 : ℝ) ≤ 0)]
  have hx : mathOp "log2" (Cell.str "x") = Cell.str "x" := rfl
  calc applyTransformation cfg6 tbl6
      = ⟨[("y", [mathOp "log2" (Cell.num 4), mathOp "log2" (Cell.num 8),
            mathOp "log2" (Cell.num (-1)), mathOp "log2" (Cell.str "x")]),
          ("g", [Cell.str "a", Cell.str "b", Cell.str "c", Cell.str "d"])]⟩ := rfl
    _ = ⟨[("y", [Cell.num 2, Cell.num 3, Cell.missing, Cell.str "x"]),
          ("g", [Cell.str "a", Cell.str "b", Cell.str "c", Cell.str "d"])]⟩ := by
        rw [h4, h8, hneg, hx]

/-! ## C2: the wide-format gate -/

theorem contains_eq_false_iff (l : List String) (a : String) :
    l.contains a = false ↔ a ∉ l := by
  constructor
  · intro hc hm
    rw [(contains_iff_mem l a).mpr hm] at hc
    cases hc
  · intro hm
    cases hb : l.contains a
    · rfl
    · exact absurd ((contains_iff_mem l a).mp hb) hm

theorem isWideTable_iff (t : Table) :
    isWideTable t = true ↔
      (2 * (objectCols t).length < (numericCols t).length ∧
        "group" ∉ objectCols t) := by
  unfold isWideTable
  rw [Bool.and_eq_true, decide_eq_true_eq, Bool.not_eq_true']
  exact and_congr_right (fun _ => contains_eq_false_iff _ _)

/-- C2 (amended): for a non-scatter, non-heatmap graph the table is
reshaped iff the numeric-leaning columns outnumber twice the *non-numeric*
columns and no **non-numeric** column is literally named `group` (a
numeric-leaning column named `group` does not block the reshape); a tie
(numeric count equal to exactly twice the non-numeric count) never
reshapes. -/
theorem cleaner_wide_gate (cfg : Config) (t : Table)
    (hg : skipGraph cfg = false) :
    (autoMeltStrategy cfg t =
      if 2 * (objectCols t).length < (numericCols t).length ∧
          "group" ∉ objectCols t
        then performMelt t else t) ∧
    ((numericCols t).length = 2 * (objectCols t).length →
      autoMeltStrategy cfg t = t) := by
  constructor
  · by_cases h : 2 * (objectCols t).length < (numericCols t).length ∧
        "group" ∉ objectCols t
    · rw [if_pos h]
      have hwt : isWideTable t = true := (isWideTable_iff t).mpr h
      simp [autoMeltStrategy, hg, hwt]
    · rw [if_neg h]
      have hwt : isWideTable t = false := by
        cases hb : isWideTable t
        · rfl
        · exact absurd ((isWideTable_iff t).mp hb) h
      simp [autoMeltStrategy, hg, hwt]
  · intro he
    have hwt : isWideTable t = false := by
      cases hb : isWideTable t
      · rfl
      · have := ((isWideTable_iff t).mp hb).1
        omega
    simp [autoMeltStrategy, hg, hwt]

/-- C2 witness: at the exact tie (two numeric-leaning vs one object
column) the table is left untouched. -/
theorem cleaner_wide_gate_witness :
    skipGraph cfgBox = false ∧ autoMeltStrategy cfgBox tblTie = tblTie :=
  ⟨by decide, (cleaner_wide_gate cfgBox tblTie (by decide)).2 (by decide)⟩

/-- C2 counterexample: a table containing a *numeric-leaning* column named
`group` is still reshaped (the source checks `'group' not in object_cols`
only), contradicting the claim that no column of the table may be named
`group`. -/
theorem cleaner_wide_gate_claim_cx :
    "group" ∈ columnNames tblGroupNumeric ∧
    columnNames (autoMeltStrategy cfgBox tblGroupNumeric) =
      ["index", "variable", "value"] := by
  constructor
  · decide
  · decide

/-! ## C3: the two header normalizations -/

theorem collapse_aux_eq (l : List Char) (h1 : noAdjWs l = true)
    (h2 : wsAllSpace l = true) :
    collapseWsAux false l = l.map spaceRepl ∧
      (isPySpace (l.headD 'a') = false → collapseWsAux true l = l.map spaceRepl) := by
  induction l with
  | nil => exact ⟨rfl, fun _ => rfl⟩
  | cons c r ih =>
    have h1r : noAdjWs r = true := by
      cases r with
      | nil => rfl
      | cons b rb =>
        have := h1
        unfold noAdjWs at this
        exact (Bool.and_eq_true _ _).mp this |>.2
    have h2c : (!isPySpace c || c == ' ') = true := by
      have := h2
      unfold wsAllSpace at this
      rw [List.all_cons, Bool.and_eq_true] at this
      exact this.1
    have h2r : wsAllSpace r = true := by
      have := h2
      unfold wsAllSpace at this
      rw [List.all_cons, Bool.and_eq_true] at this
      exact this.2
    obtain ⟨ihf, iht⟩ := ih h1r h2r
    by_cases hc : isPySpace c = true
    · have hcsp : c = ' ' := by
        rw [hc] at h2c
        simpa using h2c
      have hrhead : isPySpace (r.headD 'a') = false := by
        cases r with
        | nil => decide
        | cons b rb =>
          have := h1
          unfold noAdjWs at this
          rw [Bool.and_eq_true] at this
          have hnb := this.1
          rw [hc] at hnb
          simpa using hnb
      constructor
      · show collapseWsAux false (c :: r) = spaceRepl c :: r.map spaceRepl
        simp only [collapseWsAux, hc]
        rw [if_pos trivial, if_neg (by simp)]
        rw [iht hrhead, hcsp]
        rfl
      · intro hh
        rw [List.headD_cons, hc] at hh
        cases hh
    · have hcf : isPySpace c = false := by
        cases hb : isPySpace c
        · rfl
        · exact absurd hb hc
      have hrepl : spaceRepl c = c := by
        unfold spaceRepl
        have : (c == ' ') = false := by
          cases hb : c == ' '
          · rfl
          · have : c = ' ' := by simpa using hb
            rw [this] at hcf
            cases hcf
        rw [this]
        rfl
      have step : collapseWsAux false (c :: r) = c :: collapseWsAux false r := by
        simp only [collapseWsAux, hcf]
        rw [if_neg (by simp)]
      have step2 : collapseWsAux true (c :: r) = c :: collapseWsAux false r := by
        simp only [collapseWsAux, hcf]
        rw [if_neg (by simp)]
      constructor
      · rw [step, ihf, List.map_cons, hrepl]
      · intro _
        rw [step2, ihf, List.map_cons, hrepl]

/-- C3 (amended): `find_col`'s fallback normalization replaces each single
*space character* with an underscore, not whitespace runs.  It coincides
with the header normalization — and hence resolves any declared name whose
header-normalized image is a current column — exactly when the stripped,
lowercased target has no adjacent whitespace and no whitespace other than
plain spaces. -/
theorem mapper_fallback_norm (t : String)
    (h1 : noAdjWs (pyLowerStr (pyStrip t)).toList = true)
    (h2 : wsAllSpace (pyLowerStr (pyStrip t)).toList = true) :
    findColNorm t = normalizeHeader t ∧
    ∀ names : List String, names.contains (normalizeHeader t) = true →
      (findCol names t).isSome = true := by
  have heq : findColNorm t = normalizeHeader t := by
    unfold findColNorm normalizeHeader collapseWs
    exact congrArg String.mk ((collapse_aux_eq _ h1 h2).1).symm
  refine ⟨heq, fun names hm => ?_⟩
  unfold findCol
  by_cases hex : names.contains t = true
  · rw [if_pos hex]
    rfl
  · have hexf : names.contains t = false := by
      cases hb : names.contains t
      · rfl
      · exact absurd hb hex
    have hn : names.contains (findColNorm t) = true := by
      rw [heq]
      exact hm
    rw [if_neg (by rw [hexf]; exact Bool.false_ne_true), if_pos hn]
    rfl

/-- C3 witness: the spec's own example name resolves through the fallback
normalization against its header-normalized image. -/
theorem mapper_fallback_norm_witness :
    noAdjWs (pyLowerStr (pyStrip "Conc. (mg/ml)")).toList = true ∧
    (findCol ["conc._(mg/ml)"] "Conc. (mg/ml)").isSome = true :=
  ⟨by decide,
    (mapper_fallback_norm "Conc. (mg/ml)" (by decide) (by decide)).2
      ["conc._(mg/ml)"] (by decide)⟩

/-- C3 counterexample: on the declared name `"a  b"` (two spaces) the
fallback normalization yields `"a__b"` while `HeaderNormalizer` yields
`"a_b"`, so a declared name whose header-normalized image *is* a current
column name fails to resolve — the claimed equality of the two transforms
is false. -/
theorem mapper_fallback_norm_claim_cx :
    findColNorm "a  b" = "a__b" ∧ normalizeHeader "a  b" = "a_b" ∧
    findCol ["a_b"] "a  b" = none := by
  refine ⟨by decide, by decide, by decide⟩

/-! ## C4: the group-column fallback -/

/-- C4 (amended): with no `group` or `variable` column and a non-scatter
graph, the enforcement step renames the *first* object column `c` to
`group` only when its name differs from the resolved dependent variable;
when the first object column *is* the dependent column, no rename happens
at all — later text columns are never considered. -/
theorem enforcer_group_pick (cfg : Config) (ry : Option String) (t : Table)
    (c : String)
    (h1 : (columnNames t).contains "group" = false)
    (h2 : (columnNames t).contains "variable" = false)
    (h3 : containsSub "scatter".toList (pyLowerStr cfg.graph).toList = false)
    (hc : firstObjCol t = some c) :
    groupAssign cfg ry t = if ry = some c then t else renameCol t c "group" := by
  unfold groupAssign
  rw [h1, h2, h3, hc]
  by_cases hr : ry = some c
  · have hb : (ry == some c) = true := by
      rw [hr]
      simp
    simp [hb, hr]
  · have hb : (ry == some c) = false := by
      cases hbb : ry == some c
      · rfl
      · exact absurd (by simpa using hbb) hr
    simp [hb, hr]

/-- C4 witness: first object column `g1` distinct from the resolved
dependent column `y1` is renamed to `group`. -/
theorem enforcer_group_pick_witness :
    firstObjCol tbl4w = some "g1" ∧
    groupAssign cfgBox (some "y1") tbl4w = renameCol tbl4w "g1" "group" := by
  refine ⟨by decide, ?_⟩
  have h := enforcer_group_pick cfgBox (some "y1") tbl4w "g1" (by decide)
    (by decide) (by decide) (by decide)
  simpa using h

/-- C4 counterexample: in `tbl4` the first text column `col_a` is the
resolved dependent column and a later text column `col_b` exists; the
claim says `col_b` is renamed to `group`, but the enforcement stage leaves
the column names untouched and creates no `group` column. -/
theorem enforcer_group_pick_claim_cx :
    firstObjCol tbl4 = some "col_a" ∧
    columnNames (finalTypeEnforcement cfg4 tbl4) = ["col_a", "col_b"] := by
  refine ⟨by decide, by decide⟩

/-! ## C10: strict coercion of the `value` column -/

/-- C10: the enforcement coerces any column literally named `value` —
reshape or not — with the strict full-string parse, so the unit-suffixed
`"10kg"` becomes missing there, while the same cell in the resolved
dependent column has its leading number extracted to `10`; witnessed
end-to-end on `tbl10`, where no reshape produced the `value` column. -/
theorem enforcer_value_strict_coercion (t : Table)
    (h : (columnNames t).contains "value" = true) :
    getColData (valueCoerce t) "value" =
      (getColData t "value").map (List.map toNumericCell) ∧
    toNumericCell (Cell.str "10kg") = Cell.missing ∧
    extract_num (Cell.str "10kg") = Cell.num (10 : ℝ) ∧
    finalTypeEnforcement cfg10 tbl10 =
      ⟨[("value", [Cell.missing]), ("dose", [Cell.num (10 : ℝ)])]⟩ := by
  have h10 : ((mkRat 10 1 : ℚ) : ℝ) = (10 : ℝ) := by
    rw [Rat.mkRat_eq_div]
    push_cast
    norm_num
  refine ⟨?_, rfl, ?_, ?_⟩
  · unfold valueCoerce
    rw [if_pos h]
    exact getColData_mapColCells t "value" toNumericCell
  · rw [← h10]
    rfl
  · rw [← h10]
    rfl

/-- C10 witness: the `value` column of `tbl10` is present and is coerced
by the strict parse. -/
theorem enforcer_value_strict_coercion_witness :
    (columnNames tbl10).contains "value" = true ∧
    getColData (valueCoerce tbl10) "value" =
      (getColData tbl10 "value").map (List.map toNumericCell) :=
  ⟨by decide, (enforcer_value_strict_coercion tbl10 (by decide)).1⟩

/-! ## C9: row-count preservation -/

theorem nRows_sanitizeHeaders (t : Table) : nRows (sanitizeHeaders t) = nRows t := by
  obtain ⟨cols⟩ := t
  cases cols with
  | nil => rfl
  | cons c r => simp [sanitizeHeaders, nRows]

theorem nRows_applyTransformation (cfg : Config) (t : Table) :
    nRows (applyTransformation cfg t) = nRows t := by
  unfold applyTransformation
  by_cases hm : (pyLowerStr cfg.model == "linear") = true
  · rw [if_pos hm]
  · rw [if_neg hm]
    by_cases ht : (!(cfg.dependent_variable.getD "" == "") &&
        (columnNames t).contains (cfg.dependent_variable.getD "")) = true
    · rw [if_pos ht]
      exact nRows_mapColCells t _ _
    · rw [if_neg ht]
      exact nRows_mapAllCells t _

theorem nRows_valueCoerce (t : Table) : nRows (valueCoerce t) = nRows t := by
  unfold valueCoerce
  by_cases h : (columnNames t).contains "value" = true
  · rw [if_pos h]
    exact nRows_mapColCells t _ _
  · rw [if_neg h]

theorem nRows_yEnforce (cfg : Config) (t : Table) :
    nRows (yEnforce cfg t).1 = nRows t := by
  unfold yEnforce
  by_cases h1 : truthy cfg.dependent_variable = true
  · rw [if_pos h1]
    by_cases h2 : (columnNames t).contains
        (normalizeHeader (cfg.dependent_variable.getD "")) = true
    · rw [if_pos h2]
      by_cases h3 : (!(cfg.model == "linear") || checkNumeric
          ((getColData t (normalizeHeader (cfg.dependent_variable.getD ""))).getD [])) = true
      · rw [if_pos h3]
        exact nRows_mapColCells t _ _
      · rw [if_neg h3]
    · rw [if_neg h2]
  · rw [if_neg h1]

theorem nRows_groupAssign (cfg : Config) (ry : Option String) (t : Table) :
    nRows (groupAssign cfg ry t) = nRows t := by
  unfold groupAssign
  by_cases h1 : (columnNames t).contains "group" = true
  · rw [if_pos h1]
  · rw [if_neg h1]
    by_cases h2 : containsSub "scatter".toList (pyLowerStr cfg.graph).toList = true
    · rw [if_pos h2]
    · rw [if_neg h2]
      by_cases h3 : (columnNames t).contains "variable" = true
      · rw [if_pos h3]
        exact nRows_renameCol t _ _
      · rw [if_neg h3]
        cases hf : firstObjCol t with
        | none => rfl
        | some c =>
          show nRows (if (!(ry == some c)) = true then renameCol t c "group" else t)
            = nRows t
          by_cases h4 : (!(ry == some c)) = true
          · rw [if_pos h4]
            exact nRows_renameCol t _ _
          · rw [if_neg h4]

theorem nRows_finalTypeEnforcement (cfg : Config) (t : Table) :
    nRows (finalTypeEnforcement cfg t) = nRows t := by
  unfold finalTypeEnforcement
  rw [nRows_groupAssign, nRows_yEnforce, nRows_valueCoerce]

theorem nRows_roleRename (s : Table) (o : Option String) (nm : String) :
    nRows (if truthy o = true then
      (match findCol (columnNames s) (o.getD "") with
        | some f => renameCol s f nm
        | none => s)
      else s) = nRows s := by
  by_cases ht : truthy o = true
  · rw [if_pos ht]
    cases findCol (columnNames s) (o.getD "") with
    | none => rfl
    | some f => exact nRows_renameCol s _ _
  · rw [if_neg ht]

theorem nRows_applyMapping (cfg : Config) (t : Table) :
    nRows (applyMapping cfg t) = nRows t := by
  unfold applyMapping
  rw [nRows_roleRename, nRows_roleRename]

/-- C9: the transformation, header, value, type-enforcement and
column-mapping stages each preserve the number of rows, for every
configuration and table; the shape stage either performed a melt or also
preserved the row count. -/
theorem stages_preserve_row_count (cfg : Config) (t : Table) :
    nRows (applyTransformation cfg t) = nRows t ∧
    nRows (sanitizeHeaders t) = nRows t ∧
    nRows (sanitizeValues t) = nRows t ∧
    nRows (finalTypeEnforcement cfg t) = nRows t ∧
    nRows (applyMapping cfg t) = nRows t ∧
    (meltHappens cfg t = true ∨ nRows (autoMeltStrategy cfg t) = nRows t) := by
  refine ⟨nRows_applyTransformation cfg t, nRows_sanitizeHeaders t,
    nRows_mapAllCells t cleanCell, nRows_finalTypeEnforcement cfg t,
    nRows_applyMapping cfg t, ?_⟩
  by_cases hs : skipGraph cfg = true
  · right
    simp [autoMeltStrategy, hs]
  · have hsf : skipGraph cfg = false := by
      cases hb : skipGraph cfg
      · rfl
      · exact absurd hb hs
    by_cases hw : isWideTable t = true
    · left
      simp [meltHappens, hsf, hw]
    · right
      have hwf : isWideTable t = false := by
        cases hb : isWideTable t
        · rfl
        · exact absurd hb hw
      simp [autoMeltStrategy, hsf, hwf]

/-! ## C8: shape of a performed melt -/

theorem columnNames_stripVariableCol (t : Table) :
    columnNames (stripVariableCol t) = columnNames t :=
  columnNames_mapColCells t "variable" _

theorem nRows_stripVariableCol (t : Table) :
    nRows (stripVariableCol t) = nRows t :=
  nRows_mapColCells t "variable" _

theorem filter_contains_filter (l : List String) (q : String → Bool) :
    l.filter (fun n => (l.filter q).contains n) = l.filter q := by
  apply List.filter_congr
  intro x hx
  cases hq : q x
  · apply (contains_eq_false_iff _ _).mpr
    intro hmem
    have := (List.mem_filter.mp hmem).2
    rw [hq] at this
    cases this
  · exact (contains_iff_mem _ _).mpr (List.mem_filter.mpr ⟨hx, hq⟩)

theorem names_meltTable (t : Table) (idv : List String) :
    columnNames (meltTable t idv) =
      (columnNames t).filter (fun n => idv.contains n) ++ ["variable", "value"] := by
  show ((t.cols.filter (fun c => idv.contains c.1)).map _ ++ _).map Prod.fst = _
  rw [List.map_append, List.map_map]
  have h1 : (t.cols.filter (fun c => idv.contains c.1)).map
      (Prod.fst ∘ fun c => (c.1, (valueVarCols t idv).flatMap (fun _ => c.2)))
      = (t.cols.filter (fun c => idv.contains c.1)).map Prod.fst := rfl
  rw [h1, map_fst_filter_name]
  rfl

theorem nRows_meltTable (t : Table) (idv : List String)
    (hw : wellFormed t = true)
    (hne : t.cols.filter (fun c => idv.contains c.1) ≠ []) :
    nRows (meltTable t idv) = (valueVarCols t idv).length * nRows t := by
  cases hA : t.cols.filter (fun c => idv.contains c.1) with
  | nil => exact absurd hA hne
  | cons a A =>
    have hmem : a ∈ t.cols := List.mem_of_mem_filter (by rw [hA]; exact List.mem_cons_self a A)
    have hlen : a.2.length = nRows t := by
      have := (List.all_eq_true.mp hw) a hmem
      exact beq_iff_eq.mp this
    show nRows ⟨(t.cols.filter (fun c => idv.contains c.1)).map _ ++ _⟩ = _
    rw [hA, List.map_cons]
    show ((valueVarCols t idv).flatMap (fun _ => a.2)).length = _
    rw [flatMap_const_length, hlen]

theorem columnNames_setCol_mem (t : Table) (n : String) (d : List Cell)
    (h : (columnNames t).contains n = true) :
    columnNames (setCol t n d) = columnNames t := by
  unfold setCol
  rw [if_pos h]
  show (t.cols.map _).map Prod.fst = t.cols.map Prod.fst
  induction t.cols with
  | nil => rfl
  | cons c r ih =>
    rw [List.map_cons, List.map_cons, List.map_cons, ih]
    by_cases hb : (c.1 == n) = true
    · rw [if_pos hb]
      have : c.1 = n := eq_of_beq hb
      rw [this]
    · rw [if_neg hb]

theorem columnNames_setCol_not_mem (t : Table) (n : String) (d : List Cell)
    (h : (columnNames t).contains n = false) :
    columnNames (setCol t n d) = columnNames t ++ [n] := by
  unfold setCol
  rw [h]
  show (t.cols ++ [(n, d)]).map Prod.fst = t.cols.map Prod.fst ++ [n]
  rw [List.map_append]
  rfl

theorem length_indexColumn (t : Table) : (indexColumn t).length = nRows t := by
  unfold indexColumn
  rw [List.length_map, List.length_range]

theorem nRows_setCol_index (t : Table) :
    nRows (setCol t "index" (indexColumn t)) = nRows t := by
  unfold setCol
  by_cases h : (columnNames t).contains "index" = true
  · rw [if_pos h]
    obtain ⟨cols⟩ := t
    cases cols with
    | nil => rfl
    | cons c r =>
      show (if c.1 == "index" then ("index", indexColumn ⟨c :: r⟩) else c).2.length
        = c.2.length
      by_cases hb : (c.1 == "index") = true
      · rw [if_pos hb]
        exact length_indexColumn ⟨c :: r⟩
      · rw [if_neg hb]
  · have hf : (columnNames t).contains "index" = false := by
      cases hb : (columnNames t).contains "index"
      · rfl
      · exact absurd hb h
    rw [if_neg (by rw [hf]; exact Bool.false_ne_true)]
    obtain ⟨cols⟩ := t
    cases cols with
    | nil =>
      show (indexColumn ⟨([] : List (String × List Cell))⟩).length = 0
      exact length_indexColumn ⟨[]⟩
    | cons c r => rfl

theorem wellFormed_setCol_index (t : Table) (hw : wellFormed t = true) :
    wellFormed (setCol t "index" (indexColumn t)) = true := by
  unfold wellFormed
  rw [nRows_setCol_index]
  rw [List.all_eq_true]
  intro x hx
  unfold setCol at hx
  by_cases h : (columnNames t).contains "index" = true
  · rw [if_pos h] at hx
    simp only [List.mem_map] at hx
    obtain ⟨c, hc, hcx⟩ := hx
    by_cases hb : (c.1 == "index") = true
    · rw [if_pos hb] at hcx
      rw [← hcx]
      show ((indexColumn t).length == nRows t) = true
      rw [length_indexColumn]
      exact beq_self_eq_true _
    · rw [if_neg hb] at hcx
      rw [← hcx]
      exact (List.all_eq_true.mp hw) c hc
  · have hf : (columnNames t).contains "index" = false := by
      cases hb : (columnNames t).contains "index"
      · rfl
      · exact absurd hb h
    rw [if_neg (by rw [hf]; exact Bool.false_ne_true)] at hx
    rw [List.mem_append] at hx
    cases hx with
    | inl hx => exact (List.all_eq_true.mp hw) x hx
    | inr hx =>
      rw [List.mem_singleton] at hx
      rw [hx]
      show ((indexColumn t).length == nRows t) = true
      rw [length_indexColumn]
      exact beq_self_eq_true _

theorem filter_beq_of_nodup (l : List String) (a : String) (hnd : l.Nodup)
    (ha : a ∈ l) : l.filter (fun n => n == a) = [a] := by
  induction l with
  | nil => cases ha
  | cons b r ih =>
    have hb : b ∉ r := (List.nodup_cons.mp hnd).1
    have hr : r.Nodup := (List.nodup_cons.mp hnd).2
    rw [List.filter_cons]
    by_cases hba : (b == a) = true
    · have hbeq : b = a := eq_of_beq hba
      rw [if_pos hba]
      have : r.filter (fun n => n == a) = [] := by
        apply List.filter_eq_nil_iff.mpr
        intro n hn hna
        have : n = a := eq_of_beq (by exact hna)
        rw [this, ← hbeq] at hn
        exact hb hn
      rw [this, hbeq]
    · have hbf : (b == a) = false := by
        cases hx : b == a
        · rfl
        · exact absurd hx hba
      rw [if_neg (by rw [hbf]; exact Bool.false_ne_true)]
      have har : a ∈ r := by
        cases List.mem_cons.mp ha with
        | inl h =>
          exact absurd (by rw [h]; exact beq_self_eq_true b) hba
        | inr h => exact h
      exact ih hr har

theorem filter_beq_of_not_mem (l : List String) (a : String) (ha : a ∉ l) :
    l.filter (fun n => n == a) = [] := by
  apply List.filter_eq_nil_iff.mpr
  intro n hn hna
  have : n = a := eq_of_beq (by exact hna)
  rw [this] at hn
  exact ha hn

theorem filter_contains_map_fst (cols : List (String × List Cell))
    (p : String × List Cell → Bool) (h : (cols.map Prod.fst).Nodup) :
    (cols.map Prod.fst).filter (fun n => ((cols.filter p).map Prod.fst).contains n)
      = (cols.filter p).map Prod.fst := by
  induction cols with
  | nil => rfl
  | cons c r ih =>
    rw [List.map_cons] at h
    have hcn : c.1 ∉ r.map Prod.fst := (List.nodup_cons.mp h).1
    have hrn : (r.map Prod.fst).Nodup := (List.nodup_cons.mp h).2
    have hsub : ∀ n, n ∈ (r.filter p).map Prod.fst → n ∈ r.map Prod.fst := by
      intro n hn
      obtain ⟨x, hx, hxn⟩ := List.mem_map.mp hn
      exact List.mem_map.mpr ⟨x, List.mem_of_mem_filter hx, hxn⟩
    by_cases hp : p c = true
    · rw [List.filter_cons, if_pos hp, List.map_cons, List.map_cons, List.filter_cons]
      have hhead : ((c.1 :: (r.filter p).map Prod.fst).contains c.1) = true := by
        rw [List.contains_cons, beq_self_eq_true]
        rfl
      rw [if_pos hhead]
      congr 1
      have hcongr : ∀ n ∈ r.map Prod.fst,
          ((c.1 :: (r.filter p).map Prod.fst).contains n)
            = (((r.filter p).map Prod.fst).contains n) := by
        intro n hn
        have hne : (n == c.1) = false := by
          cases hb : n == c.1
          · rfl
          · rw [eq_of_beq hb] at hn
            exact absurd hn hcn
        rw [List.contains_cons, hne, Bool.false_or]
      rw [List.filter_congr hcongr]
      exact ih hrn
    · have hpf : p c = false := by
        cases hb : p c
        · rfl
        · exact absurd hb hp
      rw [List.filter_cons, if_neg (by rw [hpf]; exact Bool.false_ne_true),
        List.map_cons, List.filter_cons]
      have hhead : ((r.filter p).map Prod.fst).contains c.1 = false := by
        cases hb : ((r.filter p).map Prod.fst).contains c.1
        · rfl
        · exact absurd (hsub c.1 ((contains_iff_mem _ _).mp hb)) hcn
      rw [if_neg (by rw [hhead]; exact Bool.false_ne_true)]
      exact (List.filter_congr (fun n hn => rfl)).trans (ih hrn)

theorem meltedVars_eq_numericCols (t : Table)
    (hnd : (columnNames t).Nodup)
    (hcond : (objectCols t).isEmpty = false ∨
      (columnNames t).contains "index" = false) :
    meltedVarNames t = numericCols t := by
  have key : (columnNames t).filter (fun n => (numericCols t).contains n)
      = numericCols t :=
    filter_contains_map_fst t.cols (fun c => is_numeric_leaning c.2) hnd
  cases hoe : (objectCols t).isEmpty with
  | false =>
    have h1 : meltedVarNames t =
        (columnNames t).filter (fun n => !((objectCols t).contains n)) := by
      unfold meltedVarNames
      rw [hoe, if_neg Bool.false_ne_true]
    rw [h1]
    have h2 : ∀ n ∈ columnNames t,
        (!((objectCols t).contains n)) = ((numericCols t).contains n) := by
      intro n hn
      cases hq : (numericCols t).contains n with
      | true =>
        have hnm : n ∉ objectCols t := by
          intro hmem
          have := (List.mem_filter.mp hmem).2
          rw [hq] at this
          cases this
        rw [(contains_eq_false_iff _ _).mpr hnm]
        rfl
      | false =>
        have hnm : n ∈ objectCols t :=
          List.mem_filter.mpr ⟨hn, by rw [hq]; rfl⟩
        rw [(contains_iff_mem _ _).mpr hnm]
        rfl
    rw [List.filter_congr h2, key]
  | true =>
    have hidx : (columnNames t).contains "index" = false := by
      cases hcond with
      | inl h => rw [hoe] at h; cases h
      | inr h => exact h
    have hobj : (columnNames t).filter (fun n => !((numericCols t).contains n))
        = [] := List.isEmpty_iff.mp hoe
    have hall : ∀ n ∈ columnNames t, (numericCols t).contains n = true := by
      intro n hn
      have hq := List.filter_eq_nil_iff.mp hobj n hn
      cases hb : (numericCols t).contains n
      · exact absurd (by rw [hb]; rfl) hq
      · rfl
    have h1 : meltedVarNames t =
        (columnNames t).filter (fun n => !(n == "index")) := by
      unfold meltedVarNames
      rw [hoe, if_pos rfl]
    rw [h1]
    have hidxmem : "index" ∉ columnNames t := (contains_eq_false_iff _ _).mp hidx
    have h3 : (columnNames t).filter (fun n => !(n == "index")) = columnNames t := by
      apply List.filter_eq_self.mpr
      intro n hn
      cases hb : n == "index"
      · rfl
      · rw [eq_of_beq hb] at hn
        exact absurd hn hidxmem
    rw [h3]
    have h4 : (columnNames t).filter (fun n => (numericCols t).contains n)
        = columnNames t :=
      List.filter_eq_self.mpr (fun n hn => hall n hn)
    rw [← h4]
    exact key

theorem map_fst_filter_names (t : Table) (p : String → Bool) :
    ((t.cols.filter (fun c => p c.1)).map Prod.fst) = (columnNames t).filter p :=
  map_fst_filter_name t.cols p

theorem map_fst_valueVarCols (t : Table) (idv : List String) :
    (valueVarCols t idv).map Prod.fst
      = (columnNames t).filter (fun n => !(idv.contains n)) :=
  map_fst_filter_name t.cols (fun n => !(idv.contains n))

theorem contains_singleton_index (n : String) :
    ((["index"] : List String).contains n) = (n == "index") := by
  rw [List.contains_cons]
  show (n == "index" || ([] : List String).contains n) = (n == "index")
  rw [show (([] : List String).contains n) = false from rfl, Bool.or_false]

/-- C8: whenever the shape resolver reshapes a (rectangular,
uniquely-named) table, the output columns are exactly the non-numeric
columns — or a single synthesized zero-based `index` column — followed by
`variable` and `value`, and the output row count is the input row count
times the number of melted columns; those melted columns are exactly the
numeric-leaning ones whenever the synthesized name `index` does not
collide with an existing column. -/
theorem resolver_melt_shape (cfg : Config) (t : Table)
    (hm : meltHappens cfg t = true) (hw : wellFormed t = true)
    (hnd : (columnNames t).Nodup) :
    columnNames (autoMeltStrategy cfg t) =
      (if (objectCols t).isEmpty then ["index"] else objectCols t)
        ++ ["variable", "value"] ∧
    nRows (autoMeltStrategy cfg t) = nRows t * (meltedVarNames t).length ∧
    (((objectCols t).isEmpty = false ∨
        (columnNames t).contains "index" = false) →
      meltedVarNames t = numericCols t) := by
  have hs : (!skipGraph cfg) = true ∧ isWideTable t = true := by
    unfold meltHappens at hm
    rw [Bool.and_eq_true] at hm
    exact hm
  have hsf : skipGraph cfg = false := by
    have := hs.1
    cases hb : skipGraph cfg
    · rfl
    · rw [hb] at this
      cases this
  have hstage : autoMeltStrategy cfg t = performMelt t := by
    unfold autoMeltStrategy
    rw [hsf, if_neg Bool.false_ne_true, hs.2, if_pos rfl]
  rw [hstage]
  have main : columnNames (performMelt t) =
      (if (objectCols t).isEmpty then ["index"] else objectCols t)
        ++ ["variable", "value"] ∧
      nRows (performMelt t) = nRows t * (meltedVarNames t).length := by
    by_cases hoe : (objectCols t).isEmpty = true
    · -- no object column: a zero-based index column is synthesized
      have hpm : performMelt t = stripVariableCol
          (meltTable (setCol t "index" (indexColumn t)) ["index"]) := by
        simp only [performMelt]
        rw [hoe, if_pos rfl]
      have hfil : (columnNames (setCol t "index" (indexColumn t))).filter
          (fun n => (["index"] : List String).contains n) = ["index"] ∧
          (columnNames (setCol t "index" (indexColumn t))).filter
            (fun n => !((["index"] : List String).contains n))
            = meltedVarNames t := by
        have hmv : meltedVarNames t
            = (columnNames t).filter (fun n => !(n == "index")) := by
          unfold meltedVarNames
          rw [hoe, if_pos rfl]
        by_cases hci : (columnNames t).contains "index" = true
        · have hn' : columnNames (setCol t "index" (indexColumn t))
              = columnNames t := columnNames_setCol_mem t _ _ hci
          constructor
          · rw [hn',
              List.filter_congr (fun n _ => contains_singleton_index n)]
            exact filter_beq_of_nodup _ _ hnd ((contains_iff_mem _ _).mp hci)
          · rw [hn', List.filter_congr
              (fun n _ => by rw [contains_singleton_index n] :
                ∀ n ∈ columnNames t,
                  (!((["index"] : List String).contains n)) = (!(n == "index"))),
              hmv]
        · have hcif : (columnNames t).contains "index" = false := by
            cases hb : (columnNames t).contains "index"
            · rfl
            · exact absurd hb hci
          have hn' : columnNames (setCol t "index" (indexColumn t))
              = columnNames t ++ ["index"] :=
            columnNames_setCol_not_mem t _ _ hcif
          have hnm : "index" ∉ columnNames t := (contains_eq_false_iff _ _).mp hcif
          constructor
          · rw [hn', List.filter_append,
              List.filter_congr (fun n _ => contains_singleton_index n),
              filter_beq_of_not_mem _ _ hnm]
            rfl
          · rw [hn', List.filter_append, List.filter_congr
              (fun n _ => by rw [contains_singleton_index n] :
                ∀ n ∈ columnNames t,
                  (!((["index"] : List String).contains n)) = (!(n == "index"))),
              hmv,
              show (["index"] : List String).filter
                  (fun n => !((["index"] : List String).contains n)) = []
                from by decide,
              List.append_nil]
      have hne : (setCol t "index" (indexColumn t)).cols.filter
          (fun c => (["index"] : List String).contains c.1) ≠ [] := by
        intro hnil
        have hmf := map_fst_filter_names (setCol t "index" (indexColumn t))
          (fun n => (["index"] : List String).contains n)
        rw [hnil, hfil.1] at hmf
        cases hmf
      constructor
      · rw [hpm, columnNames_stripVariableCol, names_meltTable, hfil.1,
          if_pos hoe]
      · rw [hpm, nRows_stripVariableCol,
          nRows_meltTable _ _ (wellFormed_setCol_index t hw) hne,
          nRows_setCol_index]
        have hlen : (valueVarCols (setCol t "index" (indexColumn t))
            ["index"]).length = (meltedVarNames t).length := by
          have h1 := map_fst_valueVarCols (setCol t "index" (indexColumn t))
            ["index"]
          rw [hfil.2] at h1
          rw [← h1, List.length_map]
        rw [hlen, Nat.mul_comm]
    · -- object columns exist and are the id variables
      have hoef : (objectCols t).isEmpty = false := by
        cases hb : (objectCols t).isEmpty
        · rfl
        · exact absurd hb hoe
      have hpm : performMelt t
          = stripVariableCol (meltTable t (objectCols t)) := by
        simp only [performMelt]
        rw [hoef, if_neg Bool.false_ne_true]
      have hfil : (columnNames t).filter
          (fun n => (objectCols t).contains n) = objectCols t :=
        filter_contains_filter (columnNames t)
          (fun n => !((numericCols t).contains n))
      have hmv : meltedVarNames t = (columnNames t).filter
          (fun n => !((objectCols t).contains n)) := by
        unfold meltedVarNames
        rw [hoef, if_neg Bool.false_ne_true]
      have hne : t.cols.filter
          (fun c => (objectCols t).contains c.1) ≠ [] := by
        intro hnil
        have hmf := map_fst_filter_names t
          (fun n => (objectCols t).contains n)
        rw [hnil, hfil] at hmf
        have : (objectCols t).isEmpty = true := by
          rw [← hmf]
          rfl
        rw [this] at hoef
        cases hoef
      constructor
      · rw [hpm, columnNames_stripVariableCol, names_meltTable, hfil,
          hoef, if_neg Bool.false_ne_true]
      · rw [hpm, nRows_stripVariableCol, nRows_meltTable _ _ hw hne]
        have hlen : (valueVarCols t (objectCols t)).length
            = (meltedVarNames t).length := by
          have h1 := map_fst_valueVarCols t (objectCols t)
          rw [← hmv] at h1
          rw [← h1, List.length_map]
        rw [hlen, Nat.mul_comm]
  exact ⟨main.1, main.2, meltedVars_eq_numericCols t hnd⟩

/-- C8 witness: a one-object, three-numeric-column box-plot table is
melted, and its row count triples. -/
theorem resolver_melt_shape_witness :
    meltHappens cfgBox tbl8w = true ∧ wellFormed tbl8w = true ∧
    nRows (autoMeltStrategy cfgBox tbl8w)
      = nRows tbl8w * (meltedVarNames tbl8w).length :=
  ⟨by decide, by decide,
    (resolver_melt_shape cfgBox tbl8w (by decide) (by decide) (by decide)).2.1⟩

end BDCore
